import Mathlib

/-!
Verification of the BeamBench beam-propagation engine.

This file gives a shallow embedding of the parts of the BeamBench source
(optics.js, propagation.js, sources.js, ribbon.js) needed to settle the
spec claims, and proves or refutes each claim against that embedding.

Modelling conventions:
* JavaScript numbers are modelled as exact scalars in a linear ordered
  field (instantiated at ℚ where everything is rational, and at ℝ where
  the source calls Math.sqrt / Math.exp / Math.PI / trigonometry).
  Floating-point rounding is not modelled.
* The Complex class of optics.js is the structure Cx below.  The source
  accessor pair get im / set im stores the value in a backing field and
  behaves exactly like a plain data field, so it is modelled as one.
* The JavaScript expression (d || 1e-18) replaces d by 1e-18 exactly when
  d is falsy; for a nonnegative real d that means d = 0.  It is modelled
  as (if d = 0 then 1e-18 else d).
-/

namespace BeamBench

/-- The Complex class of optics.js: a (re, im) pair of scalars. -/
@[ext]
structure Cx (α : Type) where
  re : α
  im : α
deriving DecidableEq

namespace Cx

variable {α : Type} [LinearOrderedField α] [DecidableEq α]

/-- Complex.from(x): lift a scalar to a complex number (optics.js line 9). -/
def ofScalar (x : α) : Cx α := ⟨x, 0⟩

/-- Complex add (optics.js line 11). -/
def add (a b : Cx α) : Cx α := ⟨a.re + b.re, a.im + b.im⟩

/-- Complex mul (optics.js line 12). -/
def mul (a b : Cx α) : Cx α :=
  ⟨a.re * b.re - a.im * b.im, a.re * b.im + a.im * b.re⟩

/-- The denominator used by Complex.div and Complex.inv
(optics.js lines 13-14): d = b.re*b.re + b.im*b.im || 1e-18. -/
def divDenom (b : Cx α) : α :=
  if b.re * b.re + b.im * b.im = 0 then 1e-18 else b.re * b.re + b.im * b.im

/-- Complex div (optics.js line 13). -/
def div (a b : Cx α) : Cx α :=
  ⟨(a.re * b.re + a.im * b.im) / divDenom b,
   (a.im * b.re - a.re * b.im) / divDenom b⟩

/-- Complex inv (optics.js line 14). -/
def inv (a : Cx α) : Cx α := ⟨a.re / divDenom a, -a.im / divDenom a⟩

end Cx

variable {α : Type} [LinearOrderedField α] [DecidableEq α]

/-- freeSpace(qIn, L) from propagation.js lines 95-100:
Aq = qIn·(1+0i); num = Aq + L; den = qIn·(0+0i) + 1; num.div(den). -/
def freeSpace (qIn : Cx α) (L : α) : Cx α :=
  ((qIn.mul (Cx.ofScalar 1)).add (Cx.ofScalar L)).div
    ((qIn.mul (Cx.ofScalar 0)).add (Cx.ofScalar 1))

/-- C1: for every q1 with Im(q1) > 0 and every L ≥ 0, the engine's
free-space propagation returns q1 + L exactly: the imaginary part is
preserved and the real part is advanced by L. -/
theorem c1_free_space_adds_L (q1 : Cx α) (L : α)
    (h1 : 0 < q1.im) (h2 : 0 ≤ L) :
    (freeSpace q1 L).im = q1.im ∧ (freeSpace q1 L).re = q1.re + L := by
  have hnum : (q1.mul (Cx.ofScalar 1)).add (Cx.ofScalar L)
      = ⟨q1.re + L, q1.im⟩ := by
    simp [Cx.mul, Cx.add, Cx.ofScalar]
  have hden : (q1.mul (Cx.ofScalar 0)).add (Cx.ofScalar 1)
      = Cx.ofScalar 1 := by
    simp [Cx.mul, Cx.add, Cx.ofScalar]
  unfold freeSpace
  rw [hnum, hden]
  constructor <;> simp [Cx.div, Cx.divDenom, Cx.ofScalar]

theorem c1_free_space_adds_L_witness :
    (0:ℚ) < (Cx.mk (0:ℚ) 1).im ∧ (0:ℚ) ≤ 2 ∧
      (freeSpace (Cx.mk (0:ℚ) 1) 2).im = (Cx.mk (0:ℚ) 1).im ∧
      (freeSpace (Cx.mk (0:ℚ) 1) 2).re = (Cx.mk (0:ℚ) 1).re + 2 :=
  ⟨by norm_num, by norm_num,
   (c1_free_space_adds_L (Cx.mk (0:ℚ) 1) 2 (by norm_num) (by norm_num)).1,
   (c1_free_space_adds_L (Cx.mk (0:ℚ) 1) 2 (by norm_num) (by norm_num)).2⟩

/-- C9 counterexample: for b = 1e-10 + 0i the squared magnitude is
1e-20, which is strictly below the epsilon 1e-18 yet is NOT floored to
1e-18 (the JavaScript || guard only replaces an exactly-zero
denominator), and division by b really divides by 1e-20. -/
theorem c9_counterexample :
    Cx.divDenom (Cx.mk (1e-10 : ℚ) 0) < 1e-18 ∧
      Cx.divDenom (Cx.mk (1e-10 : ℚ) 0) ≠ 1e-18 ∧
      (Cx.ofScalar (1:ℚ)).div (Cx.mk (1e-10 : ℚ) 0) = Cx.mk 1e10 0 := by
  norm_num [Cx.divDenom, Cx.div, Cx.ofScalar]

/-- C9 amended: the denominator used by Complex.div and Complex.inv is
replaced by 1e-18 exactly when the squared magnitude |b|² equals zero
(in particular for b = 0); a nonzero |b|², even one strictly below
1e-18, is used as-is.  In all cases the denominator is nonzero, so
division and inversion are total and never divide by zero. -/
theorem c9_div_denominator_guard (b : Cx α) :
    Cx.divDenom b ≠ 0 ∧
      (b.re * b.re + b.im * b.im = 0 → Cx.divDenom b = 1e-18) ∧
      (b.re * b.re + b.im * b.im ≠ 0 →
        Cx.divDenom b = b.re * b.re + b.im * b.im) := by
  refine ⟨?_, ?_, ?_⟩
  · unfold Cx.divDenom
    split
    · norm_num
    · assumption
  · intro h; simp [Cx.divDenom, h]
  · intro h; simp [Cx.divDenom, h]

theorem c9_div_denominator_guard_witness :
    ((Cx.mk (0:ℚ) 0).re * (Cx.mk (0:ℚ) 0).re
        + (Cx.mk (0:ℚ) 0).im * (Cx.mk (0:ℚ) 0).im = 0) ∧
      Cx.divDenom (Cx.mk (0:ℚ) 0) = 1e-18 :=
  ⟨by norm_num, (c9_div_denominator_guard (Cx.mk (0:ℚ) 0)).2.1 (by norm_num)⟩

noncomputable section RealModel

open Real

/-- A Jones vector: the pair [Ex, Ey] of complex numbers used throughout
propagation.js. -/
def Jones : Type := Cx ℝ × Cx ℝ

/-- jNorm(J) from optics.js lines 52-56: the Euclidean norm of the
Jones 2-vector. -/
def jNorm (J : Jones) : ℝ :=
  Real.sqrt (J.1.re * J.1.re + J.1.im * J.1.im
    + (J.2.re * J.2.re + J.2.im * J.2.im))

/-- The relative intensity of a path: Math.pow(jNorm(J) / Jnorm, 2), as
computed at propagation.js lines 353-354, 571-572. -/
def relIntensity (J : Jones) (Jn : ℝ) : ℝ := (jNorm J / Jn) ^ 2

/-- The clamped reflectance R = Math.min(1, Math.max(0, R)) of the
non-polarizing beam-splitter branch (propagation.js lines 324, 341). -/
def bsClampR (R : ℝ) : ℝ := min 1 (max 0 R)

/-- The transmitted Jones vector at a non-polarizing beam splitter
(propagation.js lines 324-326): both components scaled by sqrt(T). -/
def bsTransmitted (J : Jones) (R : ℝ) : Jones :=
  (J.1.mul (Cx.ofScalar (Real.sqrt (1 - bsClampR R))),
   J.2.mul (Cx.ofScalar (Real.sqrt (1 - bsClampR R))))

/-- The reflected Jones vector at a non-polarizing beam splitter
(propagation.js lines 341-343): Ex scaled by sqrt(R)·phase and Ey by
sqrt(R)·(−1·phase), with phase = 1. -/
def bsReflected (J : Jones) (R : ℝ) : Jones :=
  (J.1.mul (Cx.ofScalar (Real.sqrt (bsClampR R) * 1)),
   J.2.mul (Cx.ofScalar (Real.sqrt (bsClampR R) * (-1 * 1))))

/-- The two branch Jones vectors constructed by the beam-splitter
dispatch (propagation.js lines 317-349): transmitted then reflected. -/
def bsBranches (J : Jones) (R : ℝ) : List Jones :=
  [bsTransmitted J R, bsReflected J R]

/-- Helper: the relative intensity is the squared Jones norm over the
squared reference norm. -/
lemma relIntensity_eq_squares (J : Jones) (Jn : ℝ) :
    relIntensity J Jn
      = (J.1.re ^ 2 + J.1.im ^ 2 + J.2.re ^ 2 + J.2.im ^ 2) / Jn ^ 2 := by
  unfold relIntensity jNorm
  have hnn : (0:ℝ) ≤ J.1.re * J.1.re + J.1.im * J.1.im
      + (J.2.re * J.2.re + J.2.im * J.2.im) := by
    nlinarith [mul_self_nonneg J.1.re, mul_self_nonneg J.1.im,
      mul_self_nonneg J.2.re, mul_self_nonneg J.2.im]
  rw [div_pow, Real.sq_sqrt hnn]
  ring

/-- Helper: scaling the two Jones components by real scalars of equal
square multiplies the relative intensity by that square. -/
lemma relIntensity_scale (J : Jones) (Jn t u : ℝ) (h : u ^ 2 = t ^ 2) :
    relIntensity (J.1.mul (Cx.ofScalar t), J.2.mul (Cx.ofScalar u)) Jn
      = t ^ 2 * relIntensity J Jn := by
  rw [relIntensity_eq_squares, relIntensity_eq_squares, ← mul_div_assoc]
  congr 1
  dsimp only [Cx.mul, Cx.ofScalar]
  linear_combination (J.2.re ^ 2 + J.2.im ^ 2) * h

/-- C2: a non-polarizing beam splitter with R = 0.5 constructs exactly
two branches (transmitted and reflected), each branch's relative
intensity equals 0.5 times the incoming relative intensity, and the two
branch intensities sum to the input intensity. -/
theorem c2_fifty_fifty_splitter (J : Jones) (Jn : ℝ) :
    (bsBranches J 0.5).length = 2 ∧
      relIntensity (bsTransmitted J 0.5) Jn = 0.5 * relIntensity J Jn ∧
      relIntensity (bsReflected J 0.5) Jn = 0.5 * relIntensity J Jn ∧
      relIntensity (bsTransmitted J 0.5) Jn
          + relIntensity (bsReflected J 0.5) Jn = relIntensity J Jn := by
  have hclamp : bsClampR 0.5 = 0.5 := by
    unfold bsClampR
    rw [max_eq_right (by norm_num), min_eq_right (by norm_num)]
  have hs : Real.sqrt 0.5 ^ 2 = 0.5 := Real.sq_sqrt (by norm_num)
  have ht : relIntensity (bsTransmitted J 0.5) Jn = 0.5 * relIntensity J Jn := by
    unfold bsTransmitted
    rw [hclamp, show (1:ℝ) - 0.5 = 0.5 by norm_num,
      relIntensity_scale J Jn _ _ rfl, hs]
  have hr : relIntensity (bsReflected J 0.5) Jn = 0.5 * relIntensity J Jn := by
    unfold bsReflected
    rw [hclamp, relIntensity_scale J Jn _ _ (by ring), mul_pow, hs]
    norm_num
  exact ⟨rfl, ht, hr, by rw [ht, hr]; ring⟩

/-- lastEdited flag of a source: which of waist / Rayleigh range is
authoritative (sources.js). -/
inductive LastEdited where
  | w0
  | zR
deriving DecidableEq

/-- The source properties consumed by syncSourceW0ZR and seeding
(sources.js lines 62-67, propagation.js lines 112-120). -/
structure SourceProps where
  wavelength_nm : ℝ
  waist_w0_um : ℝ
  rayleigh_mm : ℝ
  M2 : ℝ
  lastEdited : LastEdited

/-- syncSourceW0ZR from sources.js lines 95-105: derives the Rayleigh
range from the waist (or vice versa) according to lastEdited. -/
def syncSourceW0ZR (s : SourceProps) : SourceProps :=
  let M2 := max 1 s.M2
  let lam := s.wavelength_nm * 1e-9
  if s.lastEdited = LastEdited.w0 then
    let w0 := max 1e-9 (s.waist_w0_um * 1e-6)
    { s with rayleigh_mm := Real.pi * w0 * w0 / lam / M2 * 1e3 }
  else
    let zR := max 1e-12 (s.rayleigh_mm * 1e-3)
    { s with waist_w0_um := Real.sqrt (zR * lam * M2 / Real.pi) * 1e6 }

/-- The Rayleigh range used to seed a ray-path at sample wavelength lam
(propagation.js lines 114-120 and 145-146). -/
def seedZR (s : SourceProps) (lam : ℝ) : ℝ :=
  let M2 := max 1 s.M2
  let w0_m := max 1e-9 (s.waist_w0_um * 1e-6)
  let zR_center := max 1e-12 (s.rayleigh_mm * 1e-3)
  if s.lastEdited = LastEdited.w0 then Real.pi * w0_m * w0_m / lam / M2
  else zR_center

/-- The seeded complex beam parameter q0 = 0 + i·zR
(propagation.js line 147). -/
def seedQ0 (s : SourceProps) (lam : ℝ) : Cx ℝ := ⟨0, seedZR s lam⟩

/-- Helper: the w0-edited branch of syncSourceW0ZR, clamps kept. -/
lemma syncSourceW0ZR_w0_eq (s : SourceProps)
    (h : s.lastEdited = LastEdited.w0) :
    syncSourceW0ZR s
      = { s with rayleigh_mm :=
            Real.pi * (max 1e-9 (s.waist_w0_um * 1e-6))
              * (max 1e-9 (s.waist_w0_um * 1e-6))
              / (s.wavelength_nm * 1e-9) / (max 1 s.M2) * 1e3 } := by
  simp [syncSourceW0ZR, h]

/-- Helper: the zR-edited branch of syncSourceW0ZR, clamps kept. -/
lemma syncSourceW0ZR_zR_eq (s : SourceProps)
    (h : s.lastEdited = LastEdited.zR) :
    syncSourceW0ZR s
      = { s with waist_w0_um :=
            Real.sqrt ((max 1e-12 (s.rayleigh_mm * 1e-3))
              * (s.wavelength_nm * 1e-9) * (max 1 s.M2) / Real.pi) * 1e6 } := by
  simp [syncSourceW0ZR, h]

/-- Helper: the w0-edited branch of syncSourceW0ZR with inert clamps. -/
lemma syncSourceW0ZR_w0 (s : SourceProps) (h : s.lastEdited = LastEdited.w0)
    (hw : 1e-9 ≤ s.waist_w0_um * 1e-6) (hM : 1 ≤ s.M2) :
    (syncSourceW0ZR s).rayleigh_mm
      = Real.pi * (s.waist_w0_um * 1e-6) * (s.waist_w0_um * 1e-6)
          / (s.wavelength_nm * 1e-9) / s.M2 * 1e3 := by
  rw [syncSourceW0ZR_w0_eq s h]
  simp [max_eq_right hw, max_eq_right hM]

/-- Helper: the zR-edited branch of syncSourceW0ZR with inert clamps. -/
lemma syncSourceW0ZR_zR (s : SourceProps) (h : s.lastEdited = LastEdited.zR)
    (hz : 1e-12 ≤ s.rayleigh_mm * 1e-3) (hM : 1 ≤ s.M2) :
    (syncSourceW0ZR s).waist_w0_um
      = Real.sqrt ((s.rayleigh_mm * 1e-3) * (s.wavelength_nm * 1e-9)
          * s.M2 / Real.pi) * 1e6 := by
  rw [syncSourceW0ZR_zR_eq s h]
  simp [max_eq_right hz, max_eq_right hM]

/-- C6 counterexample: for a source with wavelength 1000 nm, waist
1000 µm and M² = 2, synchronizing with lastEdited = w0 stores a Rayleigh
range of π/2 m, not the claimed π·w0²·M²/λ = 2π m: the code divides by
M² instead of multiplying. -/
theorem c6_counterexample :
    (syncSourceW0ZR ⟨1000, 1000, 0, 2, LastEdited.w0⟩).rayleigh_mm * 1e-3
      ≠ Real.pi * (1000 * 1e-6 : ℝ) ^ 2 * 2 / (1000 * 1e-9) := by
  have h := syncSourceW0ZR_w0 ⟨1000, 1000, 0, 2, LastEdited.w0⟩ rfl
    (by norm_num) (by norm_num)
  dsimp only at h
  rw [h]
  intro hEq
  have h2 : Real.pi / 2 = 2 * Real.pi := by linear_combination hEq
  linarith [Real.pi_pos]

/-- C6 amended: synchronizing the source couples waist and Rayleigh
range via zR = π·w0² / (M²·λ) (the beam-quality factor DIVIDES, it does
not multiply), in both sync directions, and the seeded q's imaginary
part at a sample wavelength follows the same relation. -/
theorem c6_sync_rayleigh_relation (s : SourceProps) (lam_s : ℝ)
    (hM : 1 ≤ s.M2) :
    (s.lastEdited = LastEdited.w0 → 1e-9 ≤ s.waist_w0_um * 1e-6 →
      (syncSourceW0ZR s).rayleigh_mm * 1e-3
        = Real.pi * (s.waist_w0_um * 1e-6) ^ 2
            / (s.M2 * (s.wavelength_nm * 1e-9))) ∧
    (s.lastEdited = LastEdited.zR → 1e-12 ≤ s.rayleigh_mm * 1e-3 →
      0 < s.wavelength_nm →
      s.rayleigh_mm * 1e-3
        = Real.pi * ((syncSourceW0ZR s).waist_w0_um * 1e-6) ^ 2
            / (s.M2 * (s.wavelength_nm * 1e-9))) ∧
    (s.lastEdited = LastEdited.w0 → 1e-9 ≤ s.waist_w0_um * 1e-6 →
      (seedQ0 s lam_s).im
        = Real.pi * (s.waist_w0_um * 1e-6) ^ 2 / (s.M2 * lam_s)) := by
  have hM2 : (0:ℝ) < s.M2 := lt_of_lt_of_le one_pos hM
  refine ⟨?_, ?_, ?_⟩
  · intro h hw
    rw [syncSourceW0ZR_w0 s h hw hM]
    field_simp
    ring
  · intro h hz hwl
    rw [syncSourceW0ZR_zR s h hz hM]
    have hlam : (0:ℝ) < s.wavelength_nm * 1e-9 := by positivity
    have hzr : (0:ℝ) < s.rayleigh_mm * 1e-3 := lt_of_lt_of_le (by norm_num) hz
    have harg : 0 ≤ s.rayleigh_mm * 1e-3 * (s.wavelength_nm * 1e-9)
        * s.M2 / Real.pi := by
      have := Real.pi_pos
      positivity
    have hred : Real.sqrt (s.rayleigh_mm * 1e-3 * (s.wavelength_nm * 1e-9)
          * s.M2 / Real.pi) * 1e6 * 1e-6
        = Real.sqrt (s.rayleigh_mm * 1e-3 * (s.wavelength_nm * 1e-9)
          * s.M2 / Real.pi) := by
      rw [mul_assoc]
      norm_num
    rw [hred, Real.sq_sqrt harg, eq_div_iff (ne_of_gt (by positivity))]
    field_simp
    ring
  · intro h hw
    simp [seedQ0, seedZR, h, max_eq_right hw, max_eq_right hM]
    field_simp
    ring

theorem c6_sync_rayleigh_relation_witness :
    (1:ℝ) ≤ (1:ℝ) ∧
      ((syncSourceW0ZR ⟨1000, 1000, 0, 1, LastEdited.w0⟩).rayleigh_mm * 1e-3
        = Real.pi * ((1000:ℝ) * 1e-6) ^ 2 / (1 * (1000 * 1e-9))) :=
  ⟨le_refl 1,
    (c6_sync_rayleigh_relation ⟨1000, 1000, 0, 1, LastEdited.w0⟩ 1e-6
      (by norm_num)).1 rfl (by norm_num)⟩

/-- roundTripW0: synchronize a source with waist authoritative, then
re-synchronize with the stored Rayleigh range authoritative, and read
the resulting waist back (sources.js lines 95-105, at M² = 1). -/
def roundTripW0 (w0_um wavelength_nm : ℝ) : ℝ :=
  let s1 := syncSourceW0ZR ⟨wavelength_nm, w0_um, 0, 1, LastEdited.w0⟩
  (syncSourceW0ZR { s1 with lastEdited := LastEdited.zR }).waist_w0_um

/-- C7 counterexample: for a waist of 1e-5 µm at wavelength 1000 nm, the
1 nm waist floor in syncSourceW0ZR engages, and the waist→Rayleigh→waist
round trip returns 1e-3 µm — one hundred times the original waist, far
beyond floating-point tolerance. -/
theorem c7_counterexample :
    roundTripW0 1e-5 1000 = 1e-3 ∧ (1e-3 : ℝ) ≠ 1e-5 := by
  refine ⟨?_, by norm_num⟩
  unfold roundTripW0
  rw [syncSourceW0ZR_w0_eq ⟨1000, 1e-5, 0, 1, LastEdited.w0⟩ rfl]
  dsimp only
  rw [syncSourceW0ZR_zR_eq _ rfl]
  dsimp only
  have hπ1 : (1:ℝ) ≤ Real.pi := by linarith [Real.pi_gt_three]
  have hπ0 : Real.pi ≠ 0 := Real.pi_ne_zero
  have hm1 : max (1e-9:ℝ) (1e-5 * 1e-6) = 1e-9 := max_eq_left (by norm_num)
  rw [hm1, max_self]
  have hval : Real.pi * 1e-9 * 1e-9 / (1000 * 1e-9) / 1 * 1e3 * 1e-3
      = Real.pi * 1e-12 := by
    ring
  rw [hval, max_eq_right (by linarith)]
  have harg : Real.pi * 1e-12 * (1000 * 1e-9) * 1 / Real.pi = 1e-18 := by
    field_simp
    ring
  rw [harg, show (1e-18:ℝ) = (1e-9)^2 by norm_num,
    Real.sqrt_sq (by norm_num)]
  norm_num

/-- C7 amended: for waists of at least 1 nm (so the 1e-9 m waist floor
is inert) and positive wavelength such that the intermediate Rayleigh
range clears its 1e-12 m floor, the waist→Rayleigh→waist round trip at
M² = 1 returns the original waist exactly (in exact real arithmetic). -/
theorem c7_round_trip (w0_um wl : ℝ) (hw : 1e-9 ≤ w0_um * 1e-6)
    (hwl : 0 < wl)
    (hz : 1e-12 ≤ Real.pi * (w0_um * 1e-6) * (w0_um * 1e-6) / (wl * 1e-9)) :
    roundTripW0 w0_um wl = w0_um := by
  unfold roundTripW0
  rw [syncSourceW0ZR_w0_eq ⟨wl, w0_um, 0, 1, LastEdited.w0⟩ rfl]
  dsimp only
  rw [syncSourceW0ZR_zR_eq _ rfl]
  dsimp only
  simp only [max_self, max_eq_right hw]
  have hw0 : (0:ℝ) < w0_um * 1e-6 := by linarith
  have hl9 : (0:ℝ) < wl * 1e-9 := by positivity
  have hm2 : max (1e-12:ℝ)
      (Real.pi * (w0_um * 1e-6) * (w0_um * 1e-6) / (wl * 1e-9) / 1 * 1e3
        * 1e-3)
      = Real.pi * (w0_um * 1e-6) * (w0_um * 1e-6) / (wl * 1e-9) := by
    rw [max_eq_right]
    · ring
    · calc (1e-12:ℝ)
          ≤ Real.pi * (w0_um * 1e-6) * (w0_um * 1e-6) / (wl * 1e-9) := hz
        _ = Real.pi * (w0_um * 1e-6) * (w0_um * 1e-6) / (wl * 1e-9) / 1
            * 1e3 * 1e-3 := by ring
  rw [hm2]
  have harg : Real.pi * (w0_um * 1e-6) * (w0_um * 1e-6) / (wl * 1e-9)
      * (wl * 1e-9) * 1 / Real.pi = (w0_um * 1e-6) ^ 2 := by
    field_simp
    ring
  rw [harg, Real.sqrt_sq (le_of_lt hw0)]
  ring

theorem c7_round_trip_witness :
    ((1e-9:ℝ) ≤ 200 * 1e-6 ∧ (0:ℝ) < 1000 ∧
      1e-12 ≤ Real.pi * ((200:ℝ) * 1e-6) * (200 * 1e-6) / (1000 * 1e-9)) ∧
      roundTripW0 200 1000 = 200 := by
  have h1 : (1e-9:ℝ) ≤ 200 * 1e-6 := by norm_num
  have h2 : (0:ℝ) < 1000 := by norm_num
  have h3 : (1e-12:ℝ)
      ≤ Real.pi * ((200:ℝ) * 1e-6) * (200 * 1e-6) / (1000 * 1e-9) := by
    rw [show Real.pi * ((200:ℝ) * 1e-6) * (200 * 1e-6) / (1000 * 1e-9)
        = Real.pi * 0.04 by ring]
    linarith [Real.pi_gt_three]
  exact ⟨⟨h1, h2, h3⟩, c7_round_trip 200 1000 h1 h2 h3⟩

/-- The spectral sample count N (propagation.js lines 126-127):
N = max(1, floor(specSamples)), incremented once when the bandwidth is
positive and N is even. -/
def sampleCountN (bw ns : ℝ) : ℤ :=
  if 0 < bw ∧ (max 1 ⌊ns⌋) % 2 = 0 then (max 1 ⌊ns⌋) + 1 else max 1 ⌊ns⌋

/-- One raw spectral sample, the loop body of propagation.js lines
133-139: index i maps to (wavelength in m clamped below by 1e-12,
unnormalized Gaussian weight), with frac = (i−half)/half and
dnm = frac·BW·0.5. -/
def rawSample (lam0 bw half : ℝ) (i : ℕ) : ℝ × ℝ :=
  (max 1e-12 ((lam0 * 1e9 + ((i : ℝ) - half) / half * bw * 0.5) * 1e-9),
   Real.exp (-(4 * Real.log 2) * (((i : ℝ) - half) / half * bw * 0.5 / bw) ^ 2))

/-- The spectral samples of a source (propagation.js lines 126-143):
either the single center sample, or N Gaussian-weighted samples whose
weights are normalized by their sum (with the sum guarded against 0 by
the JavaScript || 1). -/
def spectralSamples (lam0 bw ns : ℝ) : List (ℝ × ℝ) :=
  if bw ≤ 0 ∨ sampleCountN bw ns = 1 then [(lam0, 1)]
  else
    let half : ℝ := ((sampleCountN bw ns : ℝ) - 1) / 2
    let raw := (List.range (sampleCountN bw ns).toNat).map (rawSample lam0 bw half)
    let sumW := if (raw.map Prod.snd).sum = 0 then 1 else (raw.map Prod.snd).sum
    raw.map (fun p => (p.1, p.2 / sumW))

lemma sampleCountN_one_le (bw ns : ℝ) : 1 ≤ sampleCountN bw ns := by
  unfold sampleCountN
  have h := le_max_left 1 ⌊ns⌋
  split <;> omega

lemma sampleCountN_odd_of_pos (bw ns : ℝ) (hbw : 0 < bw) :
    sampleCountN bw ns % 2 = 1 := by
  unfold sampleCountN
  by_cases hpar : (max 1 ⌊ns⌋) % 2 = 0
  · rw [if_pos ⟨hbw, hpar⟩]; omega
  · rw [if_neg (by tauto)]; omega

/-- Helper: below the positive-bandwidth branch, the wavelength clamp of
a raw sample is inert and the sample sits linearly at
lam0 + frac·(bw/2)·1e-9. -/
lemma rawSample_fst_eq (lam0 bw half : ℝ) (i : ℕ) (hhalf : 0 < half)
    (hbw : 0 < bw) (hlam : 1e-3 + bw / 2 ≤ lam0 * 1e9) :
    (rawSample lam0 bw half i).1
      = lam0 + ((i : ℝ) - half) / half * (bw * 0.5) * 1e-9 := by
  unfold rawSample
  have hfrac : (-1:ℝ) ≤ ((i : ℝ) - half) / half := by
    rw [le_div_iff hhalf]
    have : (0:ℝ) ≤ (i : ℝ) := Nat.cast_nonneg i
    linarith
  have h1 : (-1:ℝ) * (bw * 0.5) ≤ (((i : ℝ) - half) / half) * (bw * 0.5) :=
    mul_le_mul_of_nonneg_right hfrac (by positivity)
  have hdnm : -(bw / 2) ≤ ((i : ℝ) - half) / half * bw * 0.5 := by
    have h2 : ((i : ℝ) - half) / half * bw * 0.5
        = (((i : ℝ) - half) / half) * (bw * 0.5) := by ring
    rw [h2]
    linarith
  rw [max_eq_right (by linarith)]
  ring

/-- Helper: the broadband branch of spectralSamples spelled out, with
the sum guard discharged (the raw weights are positive exponentials). -/
lemma spectralSamples_broadband (lam0 bw ns : ℝ) (hbw : 0 < bw)
    (hN : sampleCountN bw ns ≠ 1) :
    0 < ((((List.range (sampleCountN bw ns).toNat).map
          (rawSample lam0 bw (((sampleCountN bw ns : ℝ) - 1) / 2))).map
          Prod.snd).sum) ∧
    spectralSamples lam0 bw ns
      = ((List.range (sampleCountN bw ns).toNat).map
          (rawSample lam0 bw (((sampleCountN bw ns : ℝ) - 1) / 2))).map
          (fun p => (p.1, p.2 / ((((List.range (sampleCountN bw ns).toNat).map
            (rawSample lam0 bw (((sampleCountN bw ns : ℝ) - 1) / 2))).map
            Prod.snd).sum))) := by
  have hn3 : 3 ≤ sampleCountN bw ns := by
    have h1 := sampleCountN_one_le bw ns
    have h2 := sampleCountN_odd_of_pos bw ns hbw
    omega
  have hpos : 0 < ((((List.range (sampleCountN bw ns).toNat).map
      (rawSample lam0 bw (((sampleCountN bw ns : ℝ) - 1) / 2))).map
      Prod.snd).sum) := by
    apply List.sum_pos
    · intro x hx
      simp only [List.map_map, List.mem_map, List.mem_range] at hx
      obtain ⟨i, _, hix⟩ := hx
      rw [← hix]
      exact Real.exp_pos _
    · simp only [ne_eq, List.map_eq_nil, List.range_eq_nil]
      omega
  refine ⟨hpos, ?_⟩
  unfold spectralSamples
  rw [if_neg (by push_neg; exact ⟨hbw, hN⟩)]
  simp only [if_neg (ne_of_gt hpos)]

/-- C4 amended: spectral seeding emits a single unit-weight center
sample when the bandwidth is nonpositive or the (forced-odd) sample
count is 1; otherwise it emits an odd number of samples, sample i being
placed at the CLAMPED linear position max(1e-12 m, (λ0·1e9 + Δnm_i)·1e-9)
with the offsets Δnm_i spanning ±bandwidth/2 linearly — pure linear
spacing across ±bandwidth/2 holds exactly when the 1e-12 m wavelength
clamp of propagation.js line 137 is inert (λ0·1e9 ≥ 1e-3 + bandwidth/2) —
the center wavelength appears exactly as the middle sample whenever
λ0 ≥ 1e-12 m, and the Gaussian weights exp(−4·ln2·(Δλ/bandwidth)²)
(computed from the unclamped offsets) are normalized to sum to 1. -/
theorem c4_spectral_sampling (lam0 bw ns : ℝ) :
    (bw ≤ 0 ∨ sampleCountN bw ns = 1 →
      spectralSamples lam0 bw ns = [(lam0, 1)]) ∧
    (0 < bw → sampleCountN bw ns ≠ 1 →
      Odd (spectralSamples lam0 bw ns).length ∧
      (spectralSamples lam0 bw ns).length = (sampleCountN bw ns).toNat ∧
      (∀ i : Fin (spectralSamples lam0 bw ns).length,
        ((spectralSamples lam0 bw ns).get i).1
          = max 1e-12 ((lam0 * 1e9 + (((i : ℝ)
              - ((sampleCountN bw ns : ℝ) - 1) / 2)
              / (((sampleCountN bw ns : ℝ) - 1) / 2)) * bw * 0.5) * 1e-9)) ∧
      (1e-3 + bw / 2 ≤ lam0 * 1e9 →
        ∀ i : Fin (spectralSamples lam0 bw ns).length,
          ((spectralSamples lam0 bw ns).get i).1
            = lam0 + (((i : ℝ) - ((sampleCountN bw ns : ℝ) - 1) / 2)
                / (((sampleCountN bw ns : ℝ) - 1) / 2)) * (bw * 0.5) * 1e-9) ∧
      (1e-12 ≤ lam0 → lam0 ∈ (spectralSamples lam0 bw ns).map Prod.fst) ∧
      (∃ S : ℝ, 0 < S ∧
        (∀ i : Fin (spectralSamples lam0 bw ns).length,
          ((spectralSamples lam0 bw ns).get i).2
            = Real.exp (-(4 * Real.log 2) *
                ((((i : ℝ) - ((sampleCountN bw ns : ℝ) - 1) / 2)
                  / (((sampleCountN bw ns : ℝ) - 1) / 2) * bw * 0.5 / bw) ^ 2))
              / S) ∧
        ((spectralSamples lam0 bw ns).map Prod.snd).sum = 1)) := by
  constructor
  · intro h
    unfold spectralSamples
    rw [if_pos h]
  · intro hbw hN
    obtain ⟨hpos, heq⟩ := spectralSamples_broadband lam0 bw ns hbw hN
    have hn3 : 3 ≤ sampleCountN bw ns := by
      have h1 := sampleCountN_one_le bw ns
      have h2 := sampleCountN_odd_of_pos bw ns hbw
      omega
    have hcastN : ((sampleCountN bw ns).toNat : ℝ) = (sampleCountN bw ns : ℝ) := by
      have h0 : (0:ℤ) ≤ sampleCountN bw ns := by omega
      exact_mod_cast congrArg (fun z : ℤ => (z : ℝ))
        (Int.toNat_of_nonneg h0)
    have hhalf : 0 < ((sampleCountN bw ns : ℝ) - 1) / 2 := by
      have : (3:ℝ) ≤ (sampleCountN bw ns : ℝ) := by exact_mod_cast hn3
      linarith
    have hlen : (spectralSamples lam0 bw ns).length = (sampleCountN bw ns).toNat := by
      rw [heq]
      simp
    have hget : ∀ i : Fin (spectralSamples lam0 bw ns).length,
        (spectralSamples lam0 bw ns).get i
          = ((rawSample lam0 bw (((sampleCountN bw ns : ℝ) - 1) / 2) i).1,
             (rawSample lam0 bw (((sampleCountN bw ns : ℝ) - 1) / 2) i).2
               / ((((List.range (sampleCountN bw ns).toNat).map
                 (rawSample lam0 bw (((sampleCountN bw ns : ℝ) - 1) / 2))).map
                 Prod.snd).sum)) := by
      intro i
      have hi : (i : ℕ) < (spectralSamples lam0 bw ns).length := i.isLt
      simp only [List.get_eq_getElem]
      rw [List.getElem_of_eq heq hi]
      simp [List.getElem_map, List.getElem_range]
    refine ⟨?_, hlen, ?_, ?_, ?_, ?_⟩
    · rw [hlen]
      have h2 := sampleCountN_odd_of_pos bw ns hbw
      rw [Nat.odd_iff]
      omega
    · intro i
      rw [hget i]
      rfl
    · intro hlam i
      rw [hget i]
      exact rawSample_fst_eq lam0 bw _ i hhalf hbw hlam
    · -- the center wavelength is the sample at the middle index
      intro hl0
      have hmidlt : ((sampleCountN bw ns).toNat - 1) / 2
          < (spectralSamples lam0 bw ns).length := by
        rw [hlen]; omega
      refine List.mem_map.mpr
        ⟨(spectralSamples lam0 bw ns).get ⟨((sampleCountN bw ns).toNat - 1) / 2,
          hmidlt⟩, List.get_mem _ _ _, ?_⟩
      rw [hget ⟨((sampleCountN bw ns).toNat - 1) / 2, hmidlt⟩]
      have hmidcast : ((((sampleCountN bw ns).toNat - 1) / 2 : ℕ) : ℝ)
          = ((sampleCountN bw ns : ℝ) - 1) / 2 := by
        have h2 := sampleCountN_odd_of_pos bw ns hbw
        obtain ⟨k, hk⟩ : ∃ k : ℕ, (sampleCountN bw ns).toNat = 2 * k + 1 := by
          refine ⟨((sampleCountN bw ns).toNat - 1) / 2, ?_⟩
          omega
        have hkcast : ((sampleCountN bw ns : ℝ)) = 2 * (k : ℝ) + 1 := by
          rw [← hcastN, hk]
          push_cast
          ring
        have hmid2 : ((sampleCountN bw ns).toNat - 1) / 2 = k := by omega
        rw [hmid2, hkcast]
        ring
      dsimp only
      unfold rawSample
      rw [hmidcast, sub_self, zero_div, zero_mul, zero_mul, add_zero,
        show lam0 * 1e9 * 1e-9 = lam0 by ring]
      exact max_eq_right hl0
    · refine ⟨((((List.range (sampleCountN bw ns).toNat).map
        (rawSample lam0 bw (((sampleCountN bw ns : ℝ) - 1) / 2))).map
        Prod.snd).sum), hpos, ?_, ?_⟩
      · intro i
        rw [hget i]
        rfl
      · rw [heq]
        have hcomp : (((List.range (sampleCountN bw ns).toNat).map
            (rawSample lam0 bw (((sampleCountN bw ns : ℝ) - 1) / 2))).map
            (fun p => (p.1, p.2 / ((((List.range (sampleCountN bw ns).toNat).map
              (rawSample lam0 bw (((sampleCountN bw ns : ℝ) - 1) / 2))).map
              Prod.snd).sum)))).map Prod.snd
            = ((List.range (sampleCountN bw ns).toNat).map
              (rawSample lam0 bw (((sampleCountN bw ns : ℝ) - 1) / 2))).map
              (fun p => p.2 * ((((List.range (sampleCountN bw ns).toNat).map
                (rawSample lam0 bw (((sampleCountN bw ns : ℝ) - 1) / 2))).map
                Prod.snd).sum)⁻¹) := by
          rw [List.map_map]
          congr 1
        rw [hcomp, List.sum_map_mul_right]
        rw [show (((List.range (sampleCountN bw ns).toNat).map
            (rawSample lam0 bw (((sampleCountN bw ns : ℝ) - 1) / 2))).map
            (fun p => p.2)) = (((List.range (sampleCountN bw ns).toNat).map
            (rawSample lam0 bw (((sampleCountN bw ns : ℝ) - 1) / 2))).map
            Prod.snd) from rfl]
        exact mul_inv_cancel₀ (ne_of_gt hpos)

/-- C4 counterexample: for a GUI-reachable source (center 632.8 nm,
bandwidth 1500 nm, 3 samples) the sample wavelengths are
[1e-12 m, 632.8 nm, 1382.8 nm]: the first sample is clamped at 1e-12 m
by propagation.js line 137 instead of sitting at the linear
±bandwidth/2 position 632.8 nm − 750 nm = −117.2 nm, so the samples are
NOT spaced linearly across ±bandwidth/2. -/
theorem c4_counterexample :
    (spectralSamples 632.8e-9 1500 3).map Prod.fst
        = [1e-12, 632.8e-9, 1382.8e-9] ∧
      (1e-12 : ℝ) ≠ 632.8e-9 + ((((0:ℕ) : ℝ) - ((3:ℝ) - 1) / 2)
          / (((3:ℝ) - 1) / 2)) * (1500 * 0.5) * 1e-9 := by
  have hN3 : sampleCountN 1500 3 = 3 := by
    unfold sampleCountN
    rw [show ⌊(3:ℝ)⌋ = (3:ℤ) by norm_num,
      show max (1:ℤ) 3 = 3 from max_eq_right (by norm_num)]
    norm_num
  have hbw : (0:ℝ) < 1500 := by norm_num
  have hN : sampleCountN 1500 3 ≠ 1 := by rw [hN3]; norm_num
  obtain ⟨hpos, heq⟩ := spectralSamples_broadband 632.8e-9 1500 3 hbw hN
  constructor
  · rw [heq]
    simp only [hN3]
    rw [show ((3:ℤ).toNat) = 3 from rfl, show List.range 3 = [0, 1, 2] from rfl]
    simp only [List.map_cons, List.map_nil]
    unfold rawSample
    rw [show (((3:ℤ) : ℝ) - 1) / 2 = 1 by norm_num]
    simp only [List.cons.injEq, and_true]
    refine ⟨?_, ?_, ?_⟩
    · rw [max_eq_left (by norm_num)]
    · rw [max_eq_right (by norm_num)]
      norm_num
    · rw [max_eq_right (by norm_num)]
      norm_num
  · norm_num

/-- Model of JavaScript Math.atan2 (y, x) on reals (signed zeros are not
modelled; in this development it is only applied with x ≥ 0). -/
def atan2 (y x : ℝ) : ℝ :=
  if 0 < x then Real.arctan (y / x)
  else if x < 0 then
    (if 0 ≤ y then Real.arctan (y / x) + Real.pi
     else Real.arctan (y / x) - Real.pi)
  else
    (if 0 < y then Real.pi / 2 else if y < 0 then -(Real.pi / 2) else 0)

/-- The diffraction-order indices m = −M .. M visited by the loop at
propagation.js line 201. -/
def gratingOrderIdx (M : ℕ) : List ℤ :=
  (List.range (2 * M + 1)).map (fun (i : ℕ) => (i : ℤ) - (M : ℤ))

/-- computeGratingOrders (propagation.js lines 200-211), reduced to the
physical content per order: sinβ = sinα − m·λ/d, orders with
|sinβ| > 1 skipped, cosβ = √(max 0 (1−sinβ²)), β = atan2(sinβ, cosβ).
Each kept entry is (m, sinβ, β). -/
def computeGratingOrders (sinAlpha lam d : ℝ) (M : ℕ) : List (ℤ × ℝ × ℝ) :=
  (gratingOrderIdx M).filterMap (fun (m : ℤ) =>
    if 1 < |sinAlpha - (m : ℝ) * lam / d| then none
    else some (m, sinAlpha - (m : ℝ) * lam / d,
      atan2 (sinAlpha - (m : ℝ) * lam / d)
        (Real.sqrt (max 0 (1 - (sinAlpha - (m : ℝ) * lam / d)
          * (sinAlpha - (m : ℝ) * lam / d))))))

/-- Helper: a truncated sine between −1 and 1 run through the code's
atan2/sqrt construction yields exactly arcsin. -/
lemma atan2_sqrt_eq_arcsin (s : ℝ) (h : |s| ≤ 1) :
    atan2 s (Real.sqrt (max 0 (1 - s * s))) = Real.arcsin s := by
  rcases lt_or_eq_of_le h with hlt | heq
  · have h1 := abs_lt.mp hlt
    have h2 : 0 < 1 - s * s := by nlinarith [h1.1, h1.2]
    have hmax : max 0 (1 - s * s) = 1 - s * s := max_eq_right (le_of_lt h2)
    have hsq : 0 < Real.sqrt (1 - s * s) := Real.sqrt_pos.mpr h2
    unfold atan2
    rw [hmax, if_pos hsq,
      Real.arcsin_eq_arctan (Set.mem_Ioo.mpr ⟨h1.1, h1.2⟩),
      show (1:ℝ) - s ^ 2 = 1 - s * s by ring]
  · rcases (abs_eq (by norm_num : (0:ℝ) ≤ 1)).mp heq with h1 | h1 <;>
      subst h1
    · unfold atan2
      rw [show max (0:ℝ) (1 - 1 * 1) = 0 by norm_num, Real.sqrt_zero]
      rw [if_neg (lt_irrefl 0), if_neg (lt_irrefl 0), if_pos one_pos,
        Real.arcsin_one]
    · unfold atan2
      rw [show max (0:ℝ) (1 - -1 * -1) = 0 by norm_num, Real.sqrt_zero]
      rw [if_neg (lt_irrefl 0), if_neg (lt_irrefl 0),
        if_neg (by norm_num : ¬ (0:ℝ) < -1),
        if_pos (by norm_num : (-1:ℝ) < 0), Real.arcsin_neg_one]

lemma mem_gratingOrderIdx (M : ℕ) (m : ℤ) :
    m ∈ gratingOrderIdx M ↔ -(M:ℤ) ≤ m ∧ m ≤ (M:ℤ) := by
  unfold gratingOrderIdx
  simp only [List.mem_map, List.mem_range]
  constructor
  · rintro ⟨i, hi, rfl⟩
    omega
  · intro h
    exact ⟨(m + M).toNat, by omega, by omega⟩

/-- Helper: full characterization of membership in the grating-order
list. -/
lemma mem_computeGratingOrders (sinAlpha lam d : ℝ) (M : ℕ)
    (e : ℤ × ℝ × ℝ) :
    e ∈ computeGratingOrders sinAlpha lam d M
      ↔ -(M:ℤ) ≤ e.1 ∧ e.1 ≤ (M:ℤ)
          ∧ |sinAlpha - (e.1:ℝ) * lam / d| ≤ 1
          ∧ e.2.1 = sinAlpha - (e.1:ℝ) * lam / d
          ∧ e.2.2 = atan2 e.2.1
              (Real.sqrt (max 0 (1 - e.2.1 * e.2.1))) := by
  unfold computeGratingOrders
  simp only [List.mem_filterMap]
  constructor
  · rintro ⟨a, ha, hfa⟩
    by_cases hc : 1 < |sinAlpha - (a:ℝ) * lam / d|
    · rw [if_pos hc] at hfa
      exact absurd hfa (by simp)
    · rw [if_neg hc] at hfa
      obtain rfl := (Option.some.injEq _ _).mp hfa |>.symm
      obtain ⟨hb1, hb2⟩ := (mem_gratingOrderIdx M a).mp ha
      exact ⟨hb1, hb2, not_lt.mp hc, rfl, rfl⟩
  · rintro ⟨h1, h2, h3, h4, h5⟩
    refine ⟨e.1, (mem_gratingOrderIdx M e.1).mpr ⟨h1, h2⟩, ?_⟩
    rw [if_neg (not_lt.mpr h3)]
    obtain ⟨m, s, b⟩ := e
    simp only at h4 h5 ⊢
    rw [h4] at h5 ⊢
    rw [h5]

/-- C3: the grating produces exactly the orders m in [−M, M] with
|sin α − m·λ/d| ≤ 1; each kept order's sine is sin α − m·λ/d and its
angle β satisfies sin β = sin α − m·λ/d with β = asin of that value; at
normal incidence the angle is asin(−m·λ/d) and any order with
|m·λ/d| > 1 is absent. -/
theorem c3_grating_orders (sinAlpha lam d : ℝ) (M : ℕ) :
    (∀ m : ℤ, m ∈ (computeGratingOrders sinAlpha lam d M).map (fun e => e.1)
        ↔ -(M:ℤ) ≤ m ∧ m ≤ (M:ℤ) ∧ |sinAlpha - (m:ℝ) * lam / d| ≤ 1) ∧
    (∀ e ∈ computeGratingOrders sinAlpha lam d M,
        e.2.1 = sinAlpha - (e.1 : ℝ) * lam / d ∧
        Real.sin e.2.2 = e.2.1 ∧
        e.2.2 = Real.arcsin (sinAlpha - (e.1 : ℝ) * lam / d)) ∧
    (sinAlpha = 0 →
      (∀ e ∈ computeGratingOrders sinAlpha lam d M,
          e.2.2 = Real.arcsin (-((e.1 : ℝ) * lam / d))) ∧
      ∀ m : ℤ, 1 < |(m:ℝ) * lam / d| →
        m ∉ (computeGratingOrders sinAlpha lam d M).map (fun e => e.1)) := by
  have hmem := mem_computeGratingOrders sinAlpha lam d M
  have hmap : ∀ m : ℤ,
      m ∈ (computeGratingOrders sinAlpha lam d M).map (fun e => e.1)
        ↔ -(M:ℤ) ≤ m ∧ m ≤ (M:ℤ) ∧ |sinAlpha - (m:ℝ) * lam / d| ≤ 1 := by
    intro m
    simp only [List.mem_map]
    constructor
    · rintro ⟨e, he, rfl⟩
      obtain ⟨h1, h2, h3, _, _⟩ := (hmem e).mp he
      exact ⟨h1, h2, h3⟩
    · rintro ⟨h1, h2, h3⟩
      refine ⟨(m, sinAlpha - (m:ℝ) * lam / d,
        atan2 (sinAlpha - (m:ℝ) * lam / d)
          (Real.sqrt (max 0 (1 - (sinAlpha - (m:ℝ) * lam / d)
            * (sinAlpha - (m:ℝ) * lam / d))))), ?_, rfl⟩
      exact (hmem _).mpr ⟨h1, h2, h3, rfl, rfl⟩
  have hsnd : ∀ e ∈ computeGratingOrders sinAlpha lam d M,
      e.2.1 = sinAlpha - (e.1 : ℝ) * lam / d ∧
      Real.sin e.2.2 = e.2.1 ∧
      e.2.2 = Real.arcsin (sinAlpha - (e.1 : ℝ) * lam / d) := by
    intro e he
    obtain ⟨_, _, h3, h4, h5⟩ := (hmem e).mp he
    have habs : |e.2.1| ≤ 1 := by rw [h4]; exact h3
    have hbeta : e.2.2 = Real.arcsin e.2.1 := by
      rw [h5]
      exact atan2_sqrt_eq_arcsin e.2.1 habs
    have habs' := abs_le.mp habs
    refine ⟨h4, ?_, by rw [hbeta, h4]⟩
    rw [hbeta]
    exact Real.sin_arcsin habs'.1 habs'.2
  refine ⟨hmap, hsnd, ?_⟩
  intro h0
  constructor
  · intro e he
    rw [(hsnd e he).2.2, h0]
    exact congrArg Real.arcsin (by ring)
  · intro m hm hmem'
    obtain ⟨_, _, h3⟩ := (hmap m).mp hmem'
    rw [h0] at h3
    have : |(m:ℝ) * lam / d| ≤ 1 := by
      calc |(m:ℝ) * lam / d| = |0 - (m:ℝ) * lam / d| := by
            rw [zero_sub, abs_neg]
        _ ≤ 1 := h3
    linarith

theorem c3_grating_orders_witness :
    ((1:ℤ) ∈ (computeGratingOrders 0 1 2 1).map (fun e => e.1)) ∧
      ((2:ℤ) ∉ (computeGratingOrders 0 1 2 1).map (fun e => e.1)) := by
  constructor
  · exact ((c3_grating_orders 0 1 2 1).1 1).mpr
      ⟨by norm_num, by norm_num, by rw [abs_le]; constructor <;> norm_num⟩
  · intro h
    have := ((c3_grating_orders 0 1 2 1).1 2).mp h
    have h2 : (2:ℤ) ≤ 1 := this.2.1
    omega

theorem c4_spectral_sampling_witness :
    (spectralSamples 1e-6 0 5 = [(1e-6, 1)]) ∧
      ((0:ℝ) < 100 ∧ sampleCountN 100 3 ≠ 1 ∧ (1e-12:ℝ) ≤ 1e-6) ∧
      Odd (spectralSamples 1e-6 100 3).length ∧
      (1e-6:ℝ) ∈ (spectralSamples 1e-6 100 3).map Prod.fst := by
  have hA : spectralSamples 1e-6 0 5 = [(1e-6, 1)] :=
    (c4_spectral_sampling 1e-6 0 5).1 (Or.inl (by norm_num))
  have h1 : (0:ℝ) < 100 := by norm_num
  have h2 : sampleCountN 100 3 ≠ 1 := by
    unfold sampleCountN
    norm_num
  have h3 : (1e-12:ℝ) ≤ 1e-6 := by norm_num
  have hB := (c4_spectral_sampling 1e-6 100 3).2 h1 h2
  exact ⟨hA, ⟨h1, h2, h3⟩, hB.1, hB.2.2.2.2.1 h3⟩

/-- A 3-vector of reals, modelling THREE.Vector3. -/
structure Vec3 where
  x : ℝ
  y : ℝ
  z : ℝ

instance : Add Vec3 := ⟨fun a b => ⟨a.x + b.x, a.y + b.y, a.z + b.z⟩⟩

instance : SMul ℝ Vec3 := ⟨fun s v => ⟨s * v.x, s * v.y, s * v.z⟩⟩

/-- Dot product of two Vec3. -/
def Vec3.dot (a b : Vec3) : ℝ := a.x * b.x + a.y * b.y + a.z * b.z

/-- wFromQ (propagation.js lines 101-105): beam radius from q,
w = sqrt(M²)·sqrt(λ / (|Im(1/q)|·π || 1e-18)). -/
def wFromQ (q : Cx ℝ) (lam M2 : ℝ) : ℝ :=
  Real.sqrt M2 * Real.sqrt (lam /
    (if |q.inv.im| * Real.pi = 0 then 1e-18 else |q.inv.im| * Real.pi))

/-- The in-flight ray-path state built by makeSeed (propagation.js lines
145-171) and mutated by the traversal loop.  The polarization-marker
sample fields are not modelled (params.showPolarization = false). -/
structure PathState where
  pos : Vec3
  dir : Vec3
  q : Cx ℝ
  J : Jones
  Jnorm : ℝ
  lam : ℝ
  M2 : ℝ
  traveled : ℝ
  maxLen : ℝ
  lastHit : Option ℕ
  pts : List Vec3
  dirs : List Vec3
  widths : List ℝ
  amps : List ℝ

/-- The element kinds dispatched on by the traversal step (propagation.js
lines 301-714).  beamBlock and multimeter are embedded exactly; the
branching elements (beamSplitter / mirror / grating) all queue a list of
branch paths and break, abstracted here by their branch-builder function;
the lens and the generic single-branch elements (polarizer, waveplate,
Faraday) continue, abstracted by their q / Jones / direction transfer
functions. -/
inductive ElemKind where
  | beamBlock
  | multimeter
  | splitter (branches : PathState → List PathState)
  | lens (fq : Cx ℝ → Cx ℝ) (newDir : PathState → Vec3)
  | throughElem (fq : Cx ℝ → Cx ℝ) (fJ : Jones → Vec3 → Jones)

/-- An optical element's collision identity: id, world normal (local +Z
through the element's world quaternion), and dispatch kind. -/
structure Element where
  id : ℕ
  normal : Vec3
  kind : ElemKind

/-- polEllipseAngles (propagation.js lines 47-56): polarization-ellipse
angles (ψ, χ) in degrees from the Stokes parameters of a Jones vector. -/
def polEllipseAngles (J : Jones) : ℝ × ℝ :=
  let ax2 := J.1.re * J.1.re + J.1.im * J.1.im
  let ay2 := J.2.re * J.2.re + J.2.im * J.2.im
  let re_abStar := J.1.re * J.2.re + J.1.im * J.2.im
  let im_abStar := -J.1.re * J.2.im + J.1.im * J.2.re
  let S0 := ax2 + ay2
  let S1 := ax2 - ay2
  let S2 := 2 * re_abStar
  let S3 := 2 * im_abStar
  (0.5 * atan2 S2 S1 * 180 / Real.pi,
   0.5 * Real.arcsin (max (-1) (min 1 (if S0 = 0 then 0 else S3 / S0)))
     * 180 / Real.pi)

/-- Angle of incidence in degrees (propagation.js lines 294-298):
acos of the clamped |dir·n|, converted to degrees. -/
def aoiDeg (dir n : Vec3) : ℝ :=
  Real.arccos (max 0 (min 1 |Vec3.dot dir n|)) * (180 / Real.pi)

/-- The multimeter readout snapshot (propagation.js lines 565-590).
The infinite radius of curvature reported for |Re(1/q)| < 1e-12 is
modelled as none. -/
structure Readout where
  aoi_deg : ℝ
  incomingDir : Vec3
  x_mm : ℝ
  z_mm : ℝ
  w_um : ℝ
  w0_um : ℝ
  R_mm : Option ℝ
  Irel : ℝ
  psi_deg : ℝ
  chi_deg : ℝ
  wavelength_nm : ℝ
  z_to_waist_mm : ℝ
  zR_mm : ℝ

/-- The readout recorded by the multimeter branch from the path state at
the detector plane (propagation.js lines 565-590). -/
def meterReadout (p : PathState) (n : Vec3) : Readout :=
  { aoi_deg := aoiDeg p.dir n
    incomingDir := p.dir
    x_mm := p.pos.x * 1e3
    z_mm := p.pos.z * 1e3
    w_um := wFromQ p.q p.lam p.M2 * 1e6
    w0_um := Real.sqrt (p.q.im * p.lam * p.M2 / Real.pi) * 1e6
    R_mm := if |p.q.inv.re| < 1e-12 then none else some ((1 / p.q.inv.re) * 1e3)
    Irel := (jNorm p.J / p.Jnorm) * (jNorm p.J / p.Jnorm)
    psi_deg := (polEllipseAngles p.J).1
    chi_deg := (polEllipseAngles p.J).2
    wavelength_nm := p.lam * 1e9
    z_to_waist_mm := p.q.re * 1e3
    zR_mm := p.q.im * 1e3 }

/-- The cut points of a free-space segment [0, L] (propagation.js lines
243-252): 0 and L, plus three cuts bracketing the waist z = −Re(q0) when
it lies strictly inside, sorted ascending (JavaScript
cuts.sort((a,b)=>a-b); any correct sort produces the same list). -/
def segmentCuts (q0re L : ℝ) : List ℝ :=
  if 0 < -q0re ∧ -q0re < L then
    List.insertionSort (· ≤ ·)
      ([0, L] ++ [max 0 (-q0re - max (L * 1e-4) 1e-6), -q0re,
        min L (-q0re + max (L * 1e-4) 1e-6)])
  else List.insertionSort (· ≤ ·) [0, L]

/-- The sample distances inside one sub-segment [a, b] (propagation.js
lines 256-263): skipped when b − a ≤ 0, else N = clamp(⌊subL·50⌋, 10,
160) samples at t = a + (i/N)·subL for i = 1..N. -/
def subSampleTs (a b : ℝ) : List ℝ :=
  if b - a ≤ 0 then []
  else
    (List.range (min 160 (max 10 ⌊(b - a) * 50⌋)).toNat).map
      (fun (i : ℕ) => a + (((i : ℝ) + 1)
        / ((min 160 (max 10 ⌊(b - a) * 50⌋)).toNat : ℝ)) * (b - a))

/-- All dense-sample distances of a free-space segment: the sub-segment
samples over consecutive cut pairs (propagation.js lines 256-271). -/
def segmentTs (q0re L : ℝ) : List ℝ :=
  ((segmentCuts q0re L).zip (segmentCuts q0re L).tail).flatMap
    (fun p => subSampleTs p.1 p.2)

/-- sampleSegment (propagation.js lines 227-272, with polarization
markers disabled): append position / direction / width / amplitude
samples for each sample distance t, with q(t) = freeSpace(q0, t). -/
def sampleSegment (p : PathState) (L : ℝ) : PathState :=
  { p with
    pts := p.pts ++ (segmentTs p.q.re L).map (fun t => p.pos + t • p.dir)
    dirs := p.dirs ++ (segmentTs p.q.re L).map (fun _ => p.dir)
    widths := p.widths ++ (segmentTs p.q.re L).map
      (fun t => wFromQ (freeSpace p.q t) p.lam p.M2)
    amps := p.amps ++ (segmentTs p.q.re L).map
      (fun _ => jNorm p.J / p.Jnorm) }

/-- Advance a path to a hit at distance L (propagation.js lines
286-289): sample the segment, add the distance, move to the hit point,
advance q by free space. -/
def advanceToHit (p : PathState) (L : ℝ) : PathState :=
  { sampleSegment p L with
    traveled := p.traveled + L
    pos := p.pos + L • p.dir
    q := freeSpace p.q L }

/-- The multimeter pass-through update (propagation.js lines 592-598):
remember the hit surface, push one sample at the detector plane, nudge
the position forward by 1e-6; q, J and dir are untouched. -/
def meterPass (p : PathState) (elId : ℕ) : PathState :=
  { p with
    lastHit := some elId
    pts := p.pts ++ [p.pos]
    dirs := p.dirs ++ [p.dir]
    widths := p.widths ++ [wFromQ p.q p.lam p.M2]
    amps := p.amps ++ [jNorm p.J / p.Jnorm]
    pos := p.pos + (1e-6 : ℝ) • p.dir }

/-- The lens update (propagation.js lines 603-676), with the q map and
the paraxial direction kick abstracted as functions. -/
def lensPass (p : PathState) (elId : ℕ) (fq : Cx ℝ → Cx ℝ)
    (newDir : PathState → Vec3) : PathState :=
  { p with
    q := fq p.q
    dir := newDir p
    lastHit := some elId
    pts := p.pts ++ [p.pos]
    dirs := p.dirs ++ [newDir p]
    widths := p.widths ++ [wFromQ (fq p.q) p.lam p.M2]
    amps := p.amps ++ [jNorm p.J / p.Jnorm]
    pos := p.pos + (1e-6 : ℝ) • newDir p }

/-- The generic single-branch element update (propagation.js lines
680-714): apply abcd and jones, clear lastHit, push one sample; the
position is NOT nudged. -/
def throughPass (p : PathState) (fq : Cx ℝ → Cx ℝ)
    (fJ : Jones → Vec3 → Jones) : PathState :=
  { p with
    q := fq p.q
    J := fJ p.J p.dir
    lastHit := none
    pts := p.pts ++ [p.pos]
    dirs := p.dirs ++ [p.dir]
    widths := p.widths ++ [wFromQ (fq p.q) p.lam p.M2]
    amps := p.amps ++ [jNorm (fJ p.J p.dir) / p.Jnorm] }

/-- The nearest-hit oracle: models the THREE.Raycaster call at
propagation.js lines 223-224 (origin/direction/near/far and the
lastHit filter are all functions of the path state), returning the hit
distance and the struck element, or none.  The hit point of a plane
raycast at distance L is pos + L·dir. -/
def Raycast : Type := PathState → Option (ℝ × Element)

/-- The result of marching one dequeued path: the finalized path, the
branch paths queued by splitting elements, the number of interaction
steps executed, and the multimeter readouts recorded on the way. -/
structure MarchOut where
  path : PathState
  branches : List PathState
  steps : ℕ
  meters : List (ℕ × Readout)

/-- The inner for-loop of the traversal (propagation.js lines 222-715):
up to maxSteps steps while traveled < maxLen; a missed raycast samples
the remaining budget and completes; a beam block completes at the hit; a
splitting element completes at the hit and hands back its branches; the
multimeter, lens and generic elements update the path and continue. -/
def march (rc : Raycast) : ℕ → PathState → MarchOut
  | 0, p => ⟨p, [], 0, []⟩
  | fuel + 1, p =>
    if p.traveled < p.maxLen then
      match rc p with
      | none =>
        ⟨{ sampleSegment p (p.maxLen - p.traveled) with
            traveled := p.traveled + (p.maxLen - p.traveled) }, [], 1, []⟩
      | some (L, el) =>
        match el.kind with
        | ElemKind.beamBlock => ⟨advanceToHit p L, [], 1, []⟩
        | ElemKind.splitter f =>
          ⟨advanceToHit p L, f (advanceToHit p L), 1, []⟩
        | ElemKind.multimeter =>
          let r := march rc fuel (meterPass (advanceToHit p L) el.id)
          ⟨r.path, r.branches, r.steps + 1,
            (el.id, meterReadout (advanceToHit p L) el.normal) :: r.meters⟩
        | ElemKind.lens fq nd =>
          let r := march rc fuel (lensPass (advanceToHit p L) el.id fq nd)
          ⟨r.path, r.branches, r.steps + 1, r.meters⟩
        | ElemKind.throughElem fq fJ =>
          let r := march rc fuel (throughPass (advanceToHit p L) fq fJ)
          ⟨r.path, r.branches, r.steps + 1, r.meters⟩
    else ⟨p, [], 0, []⟩

/-- MAX_BEAMS (propagation.js line 183). -/
def MAX_BEAMS : ℕ := 600

/-- The outer work loop (propagation.js lines 219-718): while the queue
is nonempty and completed + queued < MAX_BEAMS, dequeue a path, finalize
it (appending exactly one completed path), and enqueue its branches. -/
def workLoop (process : PathState → PathState × List PathState) :
    List PathState → List PathState → List PathState
  | completed, [] => completed
  | completed, p :: rest =>
    if h : completed.length + (p :: rest).length < MAX_BEAMS then
      workLoop process (completed ++ [(process p).1]) (rest ++ (process p).2)
    else completed
termination_by completed queue => MAX_BEAMS - completed.length
decreasing_by
  simp only [List.length_append, List.length_cons] at *
  omega

/-- The ribbon stage (propagation.js lines 721-725 with ribbon.js line
11): a ribbon mesh is built from every completed path, except that
buildRibbon returns null for fewer than two sample points; we model the
ribbon list by the completed paths that get a mesh. -/
def ribbonPaths (completed : List PathState) : List PathState :=
  completed.filterMap (fun p => if 2 ≤ p.pts.length then some p else none)

lemma workLoop_nil (process : PathState → PathState × List PathState)
    (completed : List PathState) :
    workLoop process completed [] = completed := by
  rw [workLoop]

lemma workLoop_cons (process : PathState → PathState × List PathState)
    (completed : List PathState) (p : PathState) (rest : List PathState) :
    workLoop process completed (p :: rest)
      = if completed.length + (p :: rest).length < MAX_BEAMS
        then workLoop process (completed ++ [(process p).1])
          (rest ++ (process p).2)
        else completed := by
  rw [workLoop]
  simp only [dite_eq_ite]

/-- Helper: everything already completed stays in the work-loop result. -/
lemma workLoop_mem (process : PathState → PathState × List PathState) :
    ∀ (n : ℕ) (completed queue : List PathState) (x : PathState),
      MAX_BEAMS - completed.length ≤ n → x ∈ completed →
      x ∈ workLoop process completed queue := by
  intro n
  induction n with
  | zero =>
    intro completed queue x hn hx
    cases queue with
    | nil => rw [workLoop_nil]; exact hx
    | cons p rest =>
      rw [workLoop_cons, if_neg (by simp only [List.length_cons]; omega)]
      exact hx
  | succ n ih =>
    intro completed queue x hn hx
    cases queue with
    | nil => rw [workLoop_nil]; exact hx
    | cons p rest =>
      rw [workLoop_cons]
      split
      · apply ih
        · simp only [List.length_append, List.length_cons,
            List.length_nil]
          omega
        · exact List.mem_append_left _ hx
      · exact hx

/-- Helper: the work loop never grows the completed list past
MAX_BEAMS. -/
lemma workLoop_length_le (process : PathState → PathState × List PathState) :
    ∀ (n : ℕ) (completed queue : List PathState),
      MAX_BEAMS - completed.length ≤ n → completed.length ≤ MAX_BEAMS →
      (workLoop process completed queue).length ≤ MAX_BEAMS := by
  intro n
  induction n with
  | zero =>
    intro completed queue hn hc
    cases queue with
    | nil => rw [workLoop_nil]; exact hc
    | cons p rest =>
      rw [workLoop_cons, if_neg (by simp only [List.length_cons]; omega)]
      exact hc
  | succ n ih =>
    intro completed queue hn hc
    cases queue with
    | nil => rw [workLoop_nil]; exact hc
    | cons p rest =>
      rw [workLoop_cons]
      split
      · rename_i h
        simp only [List.length_cons] at h
        apply ih
        · simp only [List.length_append, List.length_cons, List.length_nil]
          omega
        · simp only [List.length_append, List.length_cons, List.length_nil]
          omega
      · exact hc

/-- C10: the traversal budget holds: MAX_BEAMS is 600, the work loop
(which appends exactly one completed path per dequeued path and checks
completed + queued < MAX_BEAMS before dequeuing) finalizes at most 600
paths in total and terminates, and a dequeued path executes at most
maxSteps = params.maxSegments interaction steps. -/
theorem c10_traversal_budget :
    MAX_BEAMS = 600 ∧
    (∀ (process : PathState → PathState × List PathState)
        (queue : List PathState),
        (workLoop process [] queue).length ≤ MAX_BEAMS) ∧
    (∀ (rc : Raycast) (maxSteps : ℕ) (p : PathState),
        (march rc maxSteps p).steps ≤ maxSteps) := by
  refine ⟨rfl, ?_, ?_⟩
  · intro process queue
    exact workLoop_length_le process MAX_BEAMS [] queue
      (by simp) (by simp)
  · intro rc maxSteps
    induction maxSteps with
    | zero => intro p; rw [march]
    | succ n ih =>
      intro p
      rw [march]
      split
      · cases hrc : rc p with
        | none => simp
        | some v =>
          obtain ⟨L, el⟩ := v
          cases hk : el.kind with
          | beamBlock => simp only [hk]; omega
          | splitter f => simp only [hk]; omega
          | multimeter =>
            simp only [hk]
            have := ih (meterPass (advanceToHit p L) el.id)
            omega
          | lens fq nd =>
            simp only [hk]
            have := ih (lensPass (advanceToHit p L) el.id fq nd)
            omega
          | throughElem fq fJ =>
            simp only [hk]
            have := ih (throughPass (advanceToHit p L) fq fJ)
            omega
      · simp

/-- Helper: the march step at a multimeter hit. -/
lemma march_multimeter (rc : Raycast) (fuel : ℕ) (p : PathState) (L : ℝ)
    (el : Element) (h1 : rc p = some (L, el))
    (h2 : el.kind = ElemKind.multimeter) (h3 : p.traveled < p.maxLen) :
    march rc (fuel + 1) p
      = ⟨(march rc fuel (meterPass (advanceToHit p L) el.id)).path,
         (march rc fuel (meterPass (advanceToHit p L) el.id)).branches,
         (march rc fuel (meterPass (advanceToHit p L) el.id)).steps + 1,
         (el.id, meterReadout (advanceToHit p L) el.normal)
           :: (march rc fuel (meterPass (advanceToHit p L) el.id)).meters⟩ := by
  rw [march, if_pos h3, h1]
  dsimp only
  rw [h2]

/-- Helper: the march step at a beam-block hit. -/
lemma march_block (rc : Raycast) (fuel : ℕ) (p : PathState) (L : ℝ)
    (el : Element) (h1 : rc p = some (L, el))
    (h2 : el.kind = ElemKind.beamBlock) (h3 : p.traveled < p.maxLen) :
    march rc (fuel + 1) p = ⟨advanceToHit p L, [], 1, []⟩ := by
  rw [march, if_pos h3, h1]
  dsimp only
  rw [h2]

/-- C8: a multimeter hit leaves q, the Jones vector and the direction
unchanged, only nudges the position 1e-6 past the detector plane,
records a readout snapshot keyed by the element id, and the ray
continues marching downstream from the nudged state. -/
theorem c8_multimeter_pass (rc : Raycast) (fuel : ℕ) (p : PathState)
    (L : ℝ) (el : Element) (h1 : rc p = some (L, el))
    (h2 : el.kind = ElemKind.multimeter) (h3 : p.traveled < p.maxLen) :
    (meterPass (advanceToHit p L) el.id).q = (advanceToHit p L).q ∧
    (meterPass (advanceToHit p L) el.id).J = (advanceToHit p L).J ∧
    (meterPass (advanceToHit p L) el.id).dir = (advanceToHit p L).dir ∧
    (meterPass (advanceToHit p L) el.id).pos
      = (advanceToHit p L).pos + (1e-6 : ℝ) • (advanceToHit p L).dir ∧
    march rc (fuel + 1) p
      = ⟨(march rc fuel (meterPass (advanceToHit p L) el.id)).path,
         (march rc fuel (meterPass (advanceToHit p L) el.id)).branches,
         (march rc fuel (meterPass (advanceToHit p L) el.id)).steps + 1,
         (el.id, meterReadout (advanceToHit p L) el.normal)
           :: (march rc fuel (meterPass (advanceToHit p L) el.id)).meters⟩ :=
  ⟨rfl, rfl, rfl, rfl, march_multimeter rc fuel p L el h1 h2 h3⟩

/-- A concrete multimeter element, path and raycast oracle used by the
C8 witness. -/
def elMeterEx : Element := ⟨7, ⟨0, 0, 1⟩, ElemKind.multimeter⟩

def rcMeterEx : Raycast := fun _ => some (2, elMeterEx)

def pEx : PathState :=
  ⟨⟨0, 0, 0⟩, ⟨0, 0, 1⟩, ⟨0, 1⟩, (⟨1, 0⟩, ⟨0, 0⟩), 1, 1e-6, 1, 0, 5,
    none, [⟨0, 0, 0⟩], [⟨0, 0, 1⟩], [1], [1]⟩

theorem c8_multimeter_pass_witness :
    (meterPass (advanceToHit pEx 2) elMeterEx.id).q = (advanceToHit pEx 2).q ∧
    (meterPass (advanceToHit pEx 2) elMeterEx.id).J = (advanceToHit pEx 2).J ∧
    (meterPass (advanceToHit pEx 2) elMeterEx.id).dir
      = (advanceToHit pEx 2).dir ∧
    march rcMeterEx 4 pEx
      = ⟨(march rcMeterEx 3 (meterPass (advanceToHit pEx 2) elMeterEx.id)).path,
         (march rcMeterEx 3 (meterPass (advanceToHit pEx 2) elMeterEx.id)).branches,
         (march rcMeterEx 3 (meterPass (advanceToHit pEx 2) elMeterEx.id)).steps + 1,
         (elMeterEx.id, meterReadout (advanceToHit pEx 2) elMeterEx.normal)
           :: (march rcMeterEx 3
                (meterPass (advanceToHit pEx 2) elMeterEx.id)).meters⟩ := by
  have h := c8_multimeter_pass rcMeterEx 3 pEx 2 elMeterEx rfl rfl
    (by show (0:ℝ) < 5; norm_num)
  exact ⟨h.1, h.2.1, h.2.2.1, h.2.2.2.2⟩

/-- Helper: every segment cut lies in [0, L]. -/
lemma segmentCuts_mem (q0re L : ℝ) (hL : 0 ≤ L) (c : ℝ)
    (hc : c ∈ segmentCuts q0re L) : 0 ≤ c ∧ c ≤ L := by
  unfold segmentCuts at hc
  split at hc
  · rename_i h
    rw [List.mem_insertionSort] at hc
    have heps : (0:ℝ) < max (L * 1e-4) 1e-6 :=
      lt_of_lt_of_le (by norm_num) (le_max_right _ _)
    simp only [List.cons_append, List.nil_append, List.mem_cons,
      List.not_mem_nil, or_false] at hc
    rcases hc with h1 | h1 | h1 | h1 | h1 <;> rw [h1]
    · exact ⟨le_refl 0, hL⟩
    · exact ⟨hL, le_refl L⟩
    · exact ⟨le_max_left _ _, max_le hL (by linarith [h.2])⟩
    · exact ⟨le_of_lt h.1, le_of_lt h.2⟩
    · exact ⟨le_min hL (by linarith [h.1]), min_le_left _ _⟩
  · rw [List.mem_insertionSort] at hc
    simp only [List.mem_cons, List.not_mem_nil, or_false] at hc
    rcases hc with h1 | h1 <;> rw [h1]
    · exact ⟨le_refl 0, hL⟩
    · exact ⟨hL, le_refl L⟩

/-- Helper: every sub-segment sample distance lies in (a, b]. -/
lemma subSampleTs_mem (a b t : ℝ) (ht : t ∈ subSampleTs a b) :
    a < t ∧ t ≤ b := by
  unfold subSampleTs at ht
  split at ht
  · simp at ht
  · rename_i hab
    push_neg at hab
    simp only [List.mem_map, List.mem_range] at ht
    obtain ⟨i, hi, rfl⟩ := ht
    have hNz : (10:ℤ) ≤ min 160 (max 10 ⌊(b - a) * 50⌋) := by omega
    have hN : 10 ≤ (min 160 (max 10 ⌊(b - a) * 50⌋)).toNat := by omega
    have hNpos : (0:ℝ) < ((min 160 (max 10 ⌊(b - a) * 50⌋)).toNat : ℝ) := by
      have : (0:ℕ) < (min 160 (max 10 ⌊(b - a) * 50⌋)).toNat := by omega
      exact_mod_cast this
    have hfrac1 : (0:ℝ) < ((i : ℝ) + 1)
        / ((min 160 (max 10 ⌊(b - a) * 50⌋)).toNat : ℝ) := by
      apply div_pos
      · positivity
      · exact hNpos
    have hfrac2 : ((i : ℝ) + 1)
        / ((min 160 (max 10 ⌊(b - a) * 50⌋)).toNat : ℝ) ≤ 1 := by
      rw [div_le_one hNpos]
      have : (i : ℝ) + 1 ≤ ((min 160 (max 10 ⌊(b - a) * 50⌋)).toNat : ℝ) := by
        have := hi
        exact_mod_cast Nat.succ_le_of_lt hi
      linarith
    constructor
    · nlinarith
    · nlinarith

/-- Helper: every dense-sample distance of a segment lies in (0, L]. -/
lemma segmentTs_mem (q0re L t : ℝ) (hL : 0 ≤ L) (ht : t ∈ segmentTs q0re L) :
    0 < t ∧ t ≤ L := by
  unfold segmentTs at ht
  simp only [List.mem_flatMap] at ht
  obtain ⟨pair, hpair, htp⟩ := ht
  have hmem := List.of_mem_zip hpair
  have ha := segmentCuts_mem q0re L hL pair.1 hmem.1
  have hb := segmentCuts_mem q0re L hL pair.2 (List.mem_of_mem_tail hmem.2)
  have hsub := subSampleTs_mem pair.1 pair.2 t htp
  exact ⟨lt_of_le_of_lt ha.1 hsub.1, le_trans hsub.2 hb.2⟩

/-- Helper: a completed path with at least two sample points gets a
ribbon. -/
lemma ribbonPaths_mem (l : List PathState) (x : PathState) (hx : x ∈ l)
    (h2 : 2 ≤ x.pts.length) : x ∈ ribbonPaths l := by
  unfold ribbonPaths
  exact List.mem_filterMap.mpr ⟨x, hx, by rw [if_pos h2]⟩

/-- C5 amended: a ray-path that strikes a beam block is terminated at
the block: the march stops there in one step with no branches, every
dense sample is within distance L of the segment start (none beyond the
block point) — but the truncated path IS appended to the completed-path
list handed to visualization, and (having at least two sample points) a
ribbon IS built from it. -/
theorem c5_beam_block (rc : Raycast) (ms : ℕ) (p : PathState) (L : ℝ)
    (el : Element) (hms : 0 < ms)
    (h1 : rc p = some (L, el)) (h2 : el.kind = ElemKind.beamBlock)
    (h3 : p.traveled < p.maxLen) (hL : 0 ≤ L) :
    march rc ms p = ⟨advanceToHit p L, [], 1, []⟩ ∧
    (∀ pt ∈ (advanceToHit p L).pts,
        pt ∈ p.pts ∨ ∃ t, 0 < t ∧ t ≤ L ∧ pt = p.pos + t • p.dir) ∧
    (∀ completed rest : List PathState,
        completed.length + (p :: rest).length < MAX_BEAMS →
        advanceToHit p L ∈ workLoop
          (fun x => ((march rc ms x).path, (march rc ms x).branches))
          completed (p :: rest) ∧
        (2 ≤ (advanceToHit p L).pts.length →
          advanceToHit p L ∈ ribbonPaths (workLoop
            (fun x => ((march rc ms x).path, (march rc ms x).branches))
            completed (p :: rest)))) := by
  obtain ⟨k, rfl⟩ : ∃ k, ms = k + 1 := ⟨ms - 1, by omega⟩
  have hm := march_block rc k p L el h1 h2 h3
  refine ⟨hm, ?_, ?_⟩
  · intro pt hpt
    have hpt' : pt ∈ p.pts ++ (segmentTs p.q.re L).map
        (fun t => p.pos + t • p.dir) := hpt
    rcases List.mem_append.mp hpt' with hin | hin
    · exact Or.inl hin
    · obtain ⟨t, ht, rfl⟩ := List.mem_map.mp hin
      have hb := segmentTs_mem p.q.re L t hL ht
      exact Or.inr ⟨t, hb.1, hb.2, rfl⟩
  · intro completed rest hguard
    have hmem : advanceToHit p L ∈ workLoop
        (fun x => ((march rc (k + 1) x).path, (march rc (k + 1) x).branches))
        completed (p :: rest) := by
      rw [workLoop_cons, if_pos hguard]
      apply workLoop_mem _ (MAX_BEAMS - (completed
        ++ [((fun x => ((march rc (k + 1) x).path,
          (march rc (k + 1) x).branches)) p).1]).length) _ _ _ (le_refl _)
      simp only [hm]
      exact List.mem_append_right _ (List.mem_singleton.mpr rfl)
    exact ⟨hmem, fun hlen2 => ribbonPaths_mem _ _ hmem hlen2⟩

/-- A concrete beam-block element and raycast oracle used by the C5
witness and counterexample: the path pEx flies straight into a full
beam block at distance 1. -/
def elBlockEx : Element := ⟨1, ⟨0, 0, 1⟩, ElemKind.beamBlock⟩

def rcBlockEx : Raycast := fun _ => some (1, elBlockEx)

theorem c5_beam_block_witness :
    march rcBlockEx 3 pEx = ⟨advanceToHit pEx 1, [], 1, []⟩ :=
  (c5_beam_block rcBlockEx 3 pEx 1 elBlockEx (by norm_num) rfl rfl
    (by show (0:ℝ) < 5; norm_num) (by norm_num)).1

lemma insertionSort_pair (a b : ℝ) (h : a ≤ b) :
    List.insertionSort (· ≤ ·) [a, b] = [a, b] := by
  simp [List.insertionSort, List.orderedInsert, h]

/-- Helper: the dense sampling of the segment [0, 1] with the waist at
z = 0 (not strictly inside) emits exactly 50 samples. -/
lemma segmentTs_zero_one : (segmentTs 0 1).length = 50 := by
  unfold segmentTs segmentCuts
  rw [if_neg (by norm_num)]
  rw [insertionSort_pair 0 1 (by norm_num)]
  simp only [List.tail_cons, List.zip_cons_cons, List.zip_nil_right,
    List.flatMap_cons, List.flatMap_nil, List.append_nil]
  unfold subSampleTs
  rw [if_neg (by norm_num)]
  have h50 : ⌊((1:ℝ) - 0) * 50⌋ = 50 := by norm_num
  rw [h50, show max (10:ℤ) 50 = 50 from max_eq_right (by norm_num),
    show min (160:ℤ) 50 = 50 from min_eq_right (by norm_num)]
  simp

/-- C5 counterexample: for a concrete scene where the seed path hits a
full beam block, the truncated path is NOT excluded from the
completed-path list: the work loop returns exactly that path, and the
ribbon stage builds a ribbon from it (it has 51 ≥ 2 sample points). -/
theorem c5_counterexample :
    workLoop (fun x => ((march rcBlockEx 3 x).path,
        (march rcBlockEx 3 x).branches)) [] [pEx]
      = [advanceToHit pEx 1] ∧
    ribbonPaths [advanceToHit pEx 1] = [advanceToHit pEx 1] := by
  have hm : march rcBlockEx 3 pEx = ⟨advanceToHit pEx 1, [], 1, []⟩ :=
    march_block rcBlockEx 2 pEx 1 elBlockEx rfl rfl
      (by show (0:ℝ) < 5; norm_num)
  constructor
  · rw [workLoop_cons, if_pos (by simp [MAX_BEAMS])]
    simp only [hm, List.nil_append]
    rw [workLoop_nil]
  · have hlen : (advanceToHit pEx 1).pts.length = 51 := by
      show (pEx.pts ++ (segmentTs pEx.q.re 1).map
        (fun t => pEx.pos + t • pEx.dir)).length = 51
      rw [List.length_append, List.length_map,
        show pEx.q.re = (0:ℝ) from rfl, segmentTs_zero_one]
      rfl
    unfold ribbonPaths
    rw [List.filterMap_cons, List.filterMap_nil]
    rw [if_pos (by rw [hlen]; norm_num)]

end RealModel

end BeamBench
